import Mathlib

/-!
Verification of the scheduling-and-recovery core of workua-cv-updater
(src/workua_cv_updater/__main__.py): the jittered per-action due-time
generator, the two-way temporal merge of event streams, the durable
monotonic-only tracker, the wall-clock wait, the resource guard around the
browser session, and the control loop.

Timestamps and durations are modelled as rationals; the uniform draws of
Python's random() are passed in explicitly as values in [0, 1).
-/

namespace Workua

/-- ScheduledEvent enum from the source: the two action kinds. -/
inductive ScheduledEvent where
  | REFRESH
  | UPDATE
deriving DecidableEq

/-- ScheduleEntry namedtuple: an absolute due time paired with an action kind. -/
structure ScheduleEntry where
  whenAt : ℚ
  what : ScheduledEvent
deriving DecidableEq

/-- random_interval from the source:
base + min_drift + random() * (max_drift - min_drift), with the uniform draw u
passed explicitly. -/
def random_interval (base min_drift max_drift u : ℚ) : ℚ :=
  base + min_drift + u * (max_drift - min_drift)

/-- Shared bounds for random_interval when the uniform draw lies in [0, 1). -/
lemma random_interval_bounds (base min_drift max_drift u : ℚ)
    (hdrift : min_drift < max_drift) (hu0 : 0 ≤ u) (hu1 : u < 1) :
    base + min_drift ≤ random_interval base min_drift max_drift u ∧
      random_interval base min_drift max_drift u < base + max_drift := by
  unfold random_interval
  constructor
  · nlinarith
  · nlinarith

/-- Due times produced by Scheduler._event_stream: the first due time is
max(last_occured + random_interval(base, min_drift, max_drift), time()), and every
later due time adds a fresh random interval to the previous due time; us n is the
uniform draw consumed by the n-th interval. -/
def event_stream (last_occured base min_drift max_drift now : ℚ)
    (us : ℕ → ℚ) : ℕ → ℚ
  | 0 => max (last_occured + random_interval base min_drift max_drift (us 0)) now
  | n + 1 => event_stream last_occured base min_drift max_drift now us n +
      random_interval base min_drift max_drift (us (n + 1))

/-- C10: for max_drift > min_drift and a uniform draw in [0, 1), the randomized
interval lies in the half-open range [base+min_drift, base+max_drift): it attains
the lower bound at draw 0 and is always strictly below the upper bound. -/
theorem random_interval_half_open (base min_drift max_drift u : ℚ)
    (hdrift : min_drift < max_drift) (hu0 : 0 ≤ u) (hu1 : u < 1) :
    base + min_drift ≤ random_interval base min_drift max_drift u ∧
      random_interval base min_drift max_drift u < base + max_drift ∧
      random_interval base min_drift max_drift 0 = base + min_drift := by
  obtain ⟨h1, h2⟩ := random_interval_bounds base min_drift max_drift u hdrift hu0 hu1
  refine ⟨h1, h2, ?_⟩
  unfold random_interval
  ring

/-- Witness for C10 at base = 5, min_drift = 0, max_drift = 1, u = 1/2. -/
theorem random_interval_half_open_witness :
    ((0 : ℚ) < 1 ∧ (0 : ℚ) ≤ 1/2 ∧ (1/2 : ℚ) < 1) ∧
      ((5 : ℚ) + 0 ≤ random_interval 5 0 1 (1/2) ∧
        random_interval 5 0 1 (1/2) < 5 + 1 ∧
        random_interval 5 0 1 0 = 5 + 0) :=
  ⟨⟨by norm_num, by norm_num, by norm_num⟩,
    random_interval_half_open 5 0 1 (1/2) (by norm_num) (by norm_num) (by norm_num)⟩

/-- C1: with base B > 0 and max_drift M > min_drift m >= 0 and draws in [0, 1),
the first emitted due time is max(T0 + r, N) for some r in [B+m, B+M], every
subsequent due time is the previous one plus a fresh r in [B+m, B+M], and the
sequence is strictly increasing. -/
theorem event_stream_jitter_monotone (T0 B m M N : ℚ) (us : ℕ → ℚ)
    (hB : 0 < B) (hm : 0 ≤ m) (hmM : m < M)
    (hus : ∀ n, 0 ≤ us n ∧ us n < 1) :
    (∃ r, B + m ≤ r ∧ r ≤ B + M ∧
      event_stream T0 B m M N us 0 = max (T0 + r) N) ∧
    (∀ n, ∃ r, B + m ≤ r ∧ r ≤ B + M ∧
      event_stream T0 B m M N us (n + 1) = event_stream T0 B m M N us n + r) ∧
    (∀ n, event_stream T0 B m M N us n < event_stream T0 B m M N us (n + 1)) := by
  have hr : ∀ n, B + m ≤ random_interval B m M (us n) ∧
      random_interval B m M (us n) ≤ B + M := by
    intro n
    obtain ⟨h1, h2⟩ :=
      random_interval_bounds B m M (us n) hmM (hus n).1 (hus n).2
    exact ⟨h1, le_of_lt h2⟩
  refine ⟨⟨random_interval B m M (us 0), (hr 0).1, (hr 0).2, rfl⟩, ?_, ?_⟩
  · intro n
    exact ⟨random_interval B m M (us (n + 1)), (hr (n + 1)).1, (hr (n + 1)).2, rfl⟩
  · intro n
    have hpos : 0 < random_interval B m M (us (n + 1)) := by
      have := (hr (n + 1)).1
      linarith
    show event_stream T0 B m M N us n <
      event_stream T0 B m M N us n + random_interval B m M (us (n + 1))
    linarith

/-- Witness for C1 at T0 = 0, B = 1, m = 0, M = 1, N = 5, constant draw 1/2. -/
theorem event_stream_jitter_monotone_witness :
    ((0 : ℚ) < 1 ∧ (0 : ℚ) ≤ 0 ∧ (0 : ℚ) < 1 ∧
      (∀ n : ℕ, 0 ≤ (fun _ : ℕ => (1/2 : ℚ)) n ∧ (fun _ : ℕ => (1/2 : ℚ)) n < 1)) ∧
      event_stream 0 1 0 1 5 (fun _ => (1/2 : ℚ)) 0 <
        event_stream 0 1 0 1 5 (fun _ => (1/2 : ℚ)) 1 :=
  ⟨⟨by norm_num, by norm_num, by norm_num, fun n => ⟨by norm_num, by norm_num⟩⟩,
    (event_stream_jitter_monotone 0 1 0 1 5 (fun _ => (1/2 : ℚ))
      (by norm_num) (by norm_num) (by norm_num)
      (fun n => ⟨by norm_num, by norm_num⟩)).2.2 0⟩

/-- In-memory view of the update_ts table after initialization: the committed
values of the rows named "last" and "login". -/
structure TrackerState where
  last : ℚ
  login : ℚ
deriving DecidableEq

namespace UpdateTracker

/-- UpdateTracker.update: UPDATE update_ts SET value = ts WHERE name = 'last'
AND value < ts — the row changes only when ts strictly exceeds the stored value. -/
def update (s : TrackerState) (ts : ℚ) : TrackerState :=
  if s.last < ts then { s with last := ts } else s

/-- UpdateTracker.login: same monotonic-only write, on the row named "login". -/
def login (s : TrackerState) (ts : ℚ) : TrackerState :=
  if s.login < ts then { s with login := ts } else s

/-- UpdateTracker.last_update: read of the row named "last". -/
def last_update (s : TrackerState) : ℚ := s.last

/-- UpdateTracker.last_login: read of the row named "login". -/
def last_login (s : TrackerState) : ℚ := s.login

end UpdateTracker

/-- Kind-indexed write: REFRESH completions go to the "login" row, UPDATE
completions to the "last" row, exactly as dispatched by update_loop. -/
def record (s : TrackerState) (k : ScheduledEvent) (ts : ℚ) : TrackerState :=
  match k with
  | .REFRESH => UpdateTracker.login s ts
  | .UPDATE => UpdateTracker.update s ts

/-- Kind-indexed read of the committed value. -/
def lastOf (s : TrackerState) (k : ScheduledEvent) : ℚ :=
  match k with
  | .REFRESH => UpdateTracker.last_login s
  | .UPDATE => UpdateTracker.last_update s

/-- Shared unfolding: a record commits its timestamp exactly when it strictly
exceeds the stored value. -/
lemma lastOf_record (s : TrackerState) (k : ScheduledEvent) (ts : ℚ) :
    lastOf (record s k ts) k = if lastOf s k < ts then ts else lastOf s k := by
  cases k <;>
    simp only [record, lastOf, UpdateTracker.login, UpdateTracker.update,
      UpdateTracker.last_login, UpdateTracker.last_update] <;>
    split <;> rfl

/-- Shared fact: one record never decreases the stored value. -/
lemma lastOf_record_le (s : TrackerState) (k : ScheduledEvent) (ts : ℚ) :
    lastOf s k ≤ lastOf (record s k ts) k := by
  rw [lastOf_record]
  split <;> [linarith; exact le_refl _]

/-- Shared fact: the stored value is non-decreasing along any sequence of records. -/
lemma lastOf_foldl_record_le (k : ScheduledEvent) (l : List ℚ) :
    ∀ s : TrackerState,
      lastOf s k ≤ lastOf (List.foldl (fun a t => record a k t) s l) k := by
  induction l with
  | nil => intro s; exact le_refl _
  | cons t l ih =>
      intro s
      exact le_trans (lastOf_record_le s k t) (ih (record s k t))

/-- C2: with stored value below t1 and t0 < t1 < t2, recording t1 then t0 leaves
t1 (lower write is a no-op) while recording t1 then t2 leaves t2; in general a
record commits its timestamp iff it strictly exceeds the stored value, and the
stored value is non-decreasing over any sequence of records. -/
theorem record_monotonic (s : TrackerState) (k : ScheduledEvent)
    (t0 t1 t2 ts : ℚ) (h01 : t0 < t1) (h12 : t1 < t2) (hs : lastOf s k < t1) :
    lastOf (record (record s k t1) k t0) k = t1 ∧
    lastOf (record (record s k t1) k t2) k = t2 ∧
    lastOf (record s k ts) k = (if lastOf s k < ts then ts else lastOf s k) ∧
    (∀ l : List ℚ, lastOf s k ≤
      lastOf (List.foldl (fun a t => record a k t) s l) k) := by
  have h1 : lastOf (record s k t1) k = t1 := by
    rw [lastOf_record]
    exact if_pos hs
  refine ⟨?_, ?_, lastOf_record s k ts, ?_⟩
  · rw [lastOf_record, h1, if_neg (by linarith)]
  · rw [lastOf_record, h1, if_pos h12]
  · intro l
    exact lastOf_foldl_record_le k l s

/-- Witness for C2 at the freshly initialized state (both rows 0), k = UPDATE,
t0 = 1, t1 = 2, t2 = 3. -/
theorem record_monotonic_witness :
    ((1 : ℚ) < 2 ∧ (2 : ℚ) < 3 ∧
      lastOf ⟨0, 0⟩ ScheduledEvent.UPDATE < 2) ∧
      lastOf (record (record ⟨0, 0⟩ ScheduledEvent.UPDATE 2)
        ScheduledEvent.UPDATE 1) ScheduledEvent.UPDATE = 2 :=
  ⟨⟨by norm_num, by norm_num, by norm_num [lastOf, UpdateTracker.last_update]⟩,
    (record_monotonic ⟨0, 0⟩ ScheduledEvent.UPDATE 1 2 3 0
      (by norm_num) (by norm_num)
      (by norm_num [lastOf, UpdateTracker.last_update])).1⟩

/-- Rows of the update_ts table as found on disk when the tracker is opened:
none models an absent row. -/
structure TrackerDB where
  last : Option ℚ
  login : Option ℚ
deriving DecidableEq

/-- Initialization in UpdateTracker.__init__: for each of the names "last" and
"login", a SELECT probes for the row and an INSERT with value 0 runs only when
the probe finds nothing; existing rows are left untouched. -/
def trackerInit (db : TrackerDB) : TrackerDB :=
  { last := match db.last with
      | none => some 0
      | some v => some v,
    login := match db.login with
      | none => some 0
      | some v => some v }

/-- last_update against the on-disk table: the stored value of the row "last". -/
def db_last_update (db : TrackerDB) : Option ℚ := db.last

/-- last_login against the on-disk table: the stored value of the row "login". -/
def db_last_login (db : TrackerDB) : Option ℚ := db.login

/-- C9: opening a fresh store initializes both rows to 0, so last() returns 0
when nothing was ever recorded; opening never changes an already-stored value;
and re-opening an initialized store changes nothing. -/
theorem trackerInit_defaults (v w : ℚ) (a b : Option ℚ) :
    db_last_update (trackerInit ⟨none, none⟩) = some 0 ∧
    db_last_login (trackerInit ⟨none, none⟩) = some 0 ∧
    db_last_update (trackerInit ⟨some v, b⟩) = some v ∧
    db_last_login (trackerInit ⟨a, some w⟩) = some w ∧
    trackerInit (trackerInit ⟨a, b⟩) = trackerInit ⟨a, b⟩ := by
  refine ⟨rfl, rfl, rfl, ?_, ?_⟩
  · cases a <;> rfl
  · cases a <;> cases b <;> rfl

/-- Advancement state of heapq.merge specialised to the two streams supplied by
Scheduler._iter_events: after n outputs, (i, j) counts how many entries of the
first and second stream have been emitted. heapq.merge keyed by .when is stable:
its heap entries carry the supplied stream index as a tie-break, so on equal keys
the first stream is emitted. -/
def mergeState (a b : ℕ → ScheduleEntry) : ℕ → ℕ × ℕ
  | 0 => (0, 0)
  | n + 1 =>
      let p := mergeState a b n
      if (a p.1).whenAt ≤ (b p.2).whenAt then (p.1 + 1, p.2) else (p.1, p.2 + 1)

/-- The n-th entry of the merged schedule together with its source stream
(true = first stream). -/
def mergeOut (a b : ℕ → ScheduleEntry) (n : ℕ) : ScheduleEntry × Bool :=
  let p := mergeState a b n
  if (a p.1).whenAt ≤ (b p.2).whenAt then (a p.1, true) else (b p.2, false)

/-- Scheduler._iter_events: the REFRESH stream (interval 3600 with drift in
[10, 60]) merged with the UPDATE stream (interval 604800 with drift in
[10, 60]), in that supplied order. -/
def iter_events (last_login last_update now : ℚ) (us1 us2 : ℕ → ℚ)
    (n : ℕ) : ScheduleEntry × Bool :=
  mergeOut
    (fun i => ⟨event_stream last_login 3600 10 60 now us1 i, .REFRESH⟩)
    (fun i => ⟨event_stream last_update 604800 10 60 now us2 i, .UPDATE⟩) n

/-- Shared fact: each component of the merge state is non-decreasing. -/
lemma mergeState_mono (a b : ℕ → ScheduleEntry) (n : ℕ) :
    (mergeState a b n).1 ≤ (mergeState a b (n + 1)).1 ∧
      (mergeState a b n).2 ≤ (mergeState a b (n + 1)).2 := by
  have hstate : mergeState a b (n + 1) =
      (if (a (mergeState a b n).1).whenAt ≤ (b (mergeState a b n).2).whenAt
        then ((mergeState a b n).1 + 1, (mergeState a b n).2)
        else ((mergeState a b n).1, (mergeState a b n).2 + 1)) := rfl
  rw [hstate]
  by_cases h : (a (mergeState a b n).1).whenAt ≤ (b (mergeState a b n).2).whenAt <;>
    simp [h]

/-- Shared fact: merge-state components are non-decreasing over any gap. -/
lemma mergeState_mono_le (a b : ℕ → ScheduleEntry) {n m : ℕ} (h : n ≤ m) :
    (mergeState a b n).1 ≤ (mergeState a b m).1 ∧
      (mergeState a b n).2 ≤ (mergeState a b m).2 := by
  induction m with
  | zero =>
      have : n = 0 := Nat.le_zero.mp h
      subst this; exact ⟨le_refl _, le_refl _⟩
  | succ m ih =>
      rcases Nat.lt_or_ge n (m + 1) with hlt | hge
      · have hnm : n ≤ m := Nat.lt_succ_iff.mp hlt
        obtain ⟨h1, h2⟩ := ih hnm
        obtain ⟨g1, g2⟩ := mergeState_mono a b m
        exact ⟨le_trans h1 g1, le_trans h2 g2⟩
      · have : n = m + 1 := le_antisymm h hge
        subst this; exact ⟨le_refl _, le_refl _⟩

/-- Shared fact: a non-decreasing stream is monotone over any index gap. -/
lemma stream_mono {a : ℕ → ScheduleEntry}
    (ha : ∀ n, (a n).whenAt ≤ (a (n + 1)).whenAt) {i j : ℕ} (h : i ≤ j) :
    (a i).whenAt ≤ (a j).whenAt := by
  induction j with
  | zero =>
      have : i = 0 := Nat.le_zero.mp h
      subst this; exact le_refl _
  | succ j ih =>
      rcases Nat.lt_or_ge i (j + 1) with hlt | hge
      · exact le_trans (ih (Nat.lt_succ_iff.mp hlt)) (ha j)
      · have : i = j + 1 := le_antisymm h hge
        subst this; exact le_refl _

/-- Shared fact: successive merged outputs are in non-decreasing order. -/
lemma mergeOut_sorted_step (a b : ℕ → ScheduleEntry)
    (ha : ∀ n, (a n).whenAt ≤ (a (n + 1)).whenAt)
    (hb : ∀ n, (b n).whenAt ≤ (b (n + 1)).whenAt) (n : ℕ) :
    (mergeOut a b n).1.whenAt ≤ (mergeOut a b (n + 1)).1.whenAt := by
  unfold mergeOut
  have hstate : mergeState a b (n + 1) =
      (let p := mergeState a b n;
        if (a p.1).whenAt ≤ (b p.2).whenAt then (p.1 + 1, p.2)
        else (p.1, p.2 + 1)) := rfl
  set i := (mergeState a b n).1 with hi
  set j := (mergeState a b n).2 with hj
  by_cases h : (a i).whenAt ≤ (b j).whenAt
  · have hs : mergeState a b (n + 1) = (i + 1, j) := by
      rw [hstate]; simp only [← hi, ← hj, if_pos h]
    rw [hs]
    simp only [if_pos h]
    by_cases h2 : (a (i + 1)).whenAt ≤ (b j).whenAt
    · simpa [h2] using ha i
    · simpa [h2] using h
  · have hs : mergeState a b (n + 1) = (i, j + 1) := by
      rw [hstate]; simp only [← hi, ← hj, if_neg h]
    rw [hs]
    simp only [if_neg h]
    push_neg at h
    by_cases h2 : (a i).whenAt ≤ (b (j + 1)).whenAt
    · simpa [h2] using le_of_lt h
    · simpa [h2] using hb j

/-- Shared fact: when the n-th output is drawn from the second stream, its due
time is strictly below the first stream's pending head at every later state. -/
lemma mergeOut_snd_lt (a b : ℕ → ScheduleEntry)
    (n : ℕ) (hsrc : (mergeOut a b n).2 = false) :
    (mergeOut a b n).1.whenAt < (a (mergeState a b n).1).whenAt := by
  unfold mergeOut at hsrc ⊢
  by_cases h : (a (mergeState a b n).1).whenAt ≤ (b (mergeState a b n).2).whenAt
  · simp [h] at hsrc
  · push_neg at h
    simpa [not_le.mpr h] using h

/-- C3: for two individually non-decreasing streams, every finite prefix of
the merged output is sorted ascending by due time; an output drawn from the
second stream is strictly earlier than any later output drawn from the first
stream, so entries with equal due time appear in supplied stream order; and at
a tie between the pending heads the first stream is emitted. -/
theorem mergeOut_sorted_stable (a b : ℕ → ScheduleEntry)
    (ha : ∀ n, (a n).whenAt ≤ (a (n + 1)).whenAt)
    (hb : ∀ n, (b n).whenAt ≤ (b (n + 1)).whenAt) :
    (∀ n, (mergeOut a b n).1.whenAt ≤ (mergeOut a b (n + 1)).1.whenAt) ∧
    (∀ n m, n < m → (mergeOut a b n).2 = false → (mergeOut a b m).2 = true →
      (mergeOut a b n).1.whenAt < (mergeOut a b m).1.whenAt) ∧
    (∀ n, (a (mergeState a b n).1).whenAt = (b (mergeState a b n).2).whenAt →
      (mergeOut a b n).2 = true) := by
  refine ⟨mergeOut_sorted_step a b ha hb, ?_, ?_⟩
  · intro n m hnm hsn hsm
    have h1 : (mergeOut a b n).1.whenAt < (a (mergeState a b n).1).whenAt :=
      mergeOut_snd_lt a b n hsn
    have hle : (mergeState a b n).1 ≤ (mergeState a b m).1 :=
      (mergeState_mono_le a b (le_of_lt hnm)).1
    have h2 : (a (mergeState a b n).1).whenAt ≤
        (a (mergeState a b m).1).whenAt := stream_mono ha hle
    have h3 : (mergeOut a b m).1.whenAt = (a (mergeState a b m).1).whenAt := by
      unfold mergeOut at hsm ⊢
      by_cases h : (a (mergeState a b m).1).whenAt ≤
          (b (mergeState a b m).2).whenAt
      · simp [h]
      · simp [h] at hsm
    rw [h3]
    exact lt_of_lt_of_le h1 h2
  · intro n heq
    unfold mergeOut
    simp [le_of_eq heq]

/-- Witness for C3 with the constant streams a n = (n, REFRESH) and
b n = (n, UPDATE). -/
theorem mergeOut_sorted_stable_witness :
    ((∀ n : ℕ, ((fun i => (⟨(i : ℚ), .REFRESH⟩ : ScheduleEntry)) n).whenAt ≤
        ((fun i => (⟨(i : ℚ), .REFRESH⟩ : ScheduleEntry)) (n + 1)).whenAt) ∧
      (∀ n : ℕ, ((fun i => (⟨(i : ℚ), .UPDATE⟩ : ScheduleEntry)) n).whenAt ≤
        ((fun i => (⟨(i : ℚ), .UPDATE⟩ : ScheduleEntry)) (n + 1)).whenAt)) ∧
      (mergeOut (fun i => ⟨(i : ℚ), .REFRESH⟩)
        (fun i => ⟨(i : ℚ), .UPDATE⟩) 0).1.whenAt ≤
        (mergeOut (fun i => ⟨(i : ℚ), .REFRESH⟩)
          (fun i => ⟨(i : ℚ), .UPDATE⟩) 1).1.whenAt :=
  ⟨⟨fun n => by simp, fun n => by simp⟩,
    (mergeOut_sorted_stable _ _ (fun n => by simp) (fun n => by simp)).1 0⟩

/-- Classes of exceptions the guard and loop distinguish: WebDriverException
(actor-class failure), KeyboardInterrupt (the cancellation signal raised by the
SIGTERM handler), and any other ordinary Exception. -/
inductive ExnClass where
  | webDriver
  | keyboardInterrupt
  | other
deriving DecidableEq

/-- Result of running a body: a normal return or a raised exception. -/
inductive Outcome (α : Type) where
  | ok : α → Outcome α
  | exn : ExnClass → Outcome α
deriving DecidableEq

/-- Observable actions of the managed_browser guard, in program order:
session creation, the handler's diagnostic logging of the current URL and
cookies, the screenshot persisted under a name derived from the timestamp ts,
and browser.quit(). -/
inductive GuardEvent where
  | acquire
  | logURL
  | logCookies
  | screenshot (ts : ℚ)
  | release
deriving DecidableEq

/-- Test for the release event. -/
def isRelease : GuardEvent → Bool
  | .release => true
  | _ => false

/-- Test for the screenshot event. -/
def isScreenshot : GuardEvent → Bool
  | .screenshot _ => true
  | _ => false

/-- managed_browser from the source: the browser is created, the body runs;
except WebDriverException logs the current URL and the cookies, saves a
screenshot named from the current time, and re-raises; the else branch logs URL
and cookies at debug level; finally always calls browser.quit() once. Other
exceptions (KeyboardInterrupt included) pass through uncaught. -/
def managed_browser {α : Type} (now : ℚ) (body : Outcome α) :
    Outcome α × List GuardEvent :=
  match body with
  | .ok a => (.ok a, [.acquire, .logURL, .logCookies, .release])
  | .exn .webDriver =>
      (.exn .webDriver,
        [.acquire, .logURL, .logCookies, .screenshot now, .release])
  | .exn e => (.exn e, [.acquire, .release])

/-- C4: on every outcome of the body — normal return, ordinary failure,
actor-class failure, or cancellation — the guard performs exactly one release,
and the body's outcome propagates to the caller unchanged. -/
theorem managed_browser_release_once {α : Type} (now : ℚ) (body : Outcome α) :
    ((managed_browser now body).2.countP (fun e => isRelease e)) = 1 ∧
      (managed_browser now body).1 = body := by
  cases body with
  | ok a => exact ⟨rfl, rfl⟩
  | exn e => cases e <;> exact ⟨rfl, rfl⟩

/-- C6: on an actor-class failure the guard's trace is exactly acquire, URL log,
cookie log, a screenshot named from the failure timestamp, then release — the
visual capture precedes the release — and the same failure is re-raised; on a
normal return, a cancellation, or an ordinary failure no screenshot is taken. -/
theorem managed_browser_diagnostics {α : Type} (now : ℚ) (a : α) :
    (managed_browser now (Outcome.exn ExnClass.webDriver : Outcome α)).2 =
        [.acquire, .logURL, .logCookies, .screenshot now, .release] ∧
      (managed_browser now (Outcome.exn ExnClass.webDriver : Outcome α)).1 =
        Outcome.exn ExnClass.webDriver ∧
      ((managed_browser now (Outcome.ok a)).2.countP
        (fun e => isScreenshot e)) = 0 ∧
      ((managed_browser now
        (Outcome.exn ExnClass.keyboardInterrupt : Outcome α)).2.countP
        (fun e => isScreenshot e)) = 0 ∧
      ((managed_browser now (Outcome.exn ExnClass.other : Outcome α)).2.countP
        (fun e => isScreenshot e)) = 0 :=
  ⟨rfl, rfl, rfl, rfl, rfl⟩

/-- wall_clock_wait from the source: while time() < when, sleep one quantum and
look again. c n is the wall-clock reading observed at the n-th check, k counts
the sleeps performed so far, and fuel bounds the number of iterations modelled;
the returned value is the number of sleeps performed before returning. -/
def wall_clock_wait (c : ℕ → ℚ) (deadline : ℚ) : ℕ → ℕ → Option ℕ
  | 0, _ => none
  | fuel + 1, k =>
      if c k < deadline then wall_clock_wait c deadline fuel (k + 1) else some k

/-- Shared fact: a successful wait starting at check index j returns an index
at or beyond j whose reading meets the deadline, with every reading between
strictly early. -/
lemma wall_clock_wait_invariant (c : ℕ → ℚ) (deadline : ℚ) :
    ∀ fuel j k, wall_clock_wait c deadline fuel j = some k →
      j ≤ k ∧ deadline ≤ c k ∧ ∀ m, j ≤ m → m < k → c m < deadline := by
  intro fuel
  induction fuel with
  | zero => intro j k h; exact absurd h (by simp [wall_clock_wait])
  | succ fuel ih =>
      intro j k h
      unfold wall_clock_wait at h
      by_cases hc : c j < deadline
      · rw [if_pos hc] at h
        obtain ⟨h1, h2, h3⟩ := ih (j + 1) k h
        refine ⟨le_trans (Nat.le_succ j) h1, h2, ?_⟩
        intro m hjm hmk
        rcases Nat.lt_or_ge m (j + 1) with hm | hm
        · have : m = j := le_antisymm (Nat.lt_succ_iff.mp hm) hjm
          subst this; exact hc
        · exact h3 m hm hmk
      · rw [if_neg hc] at h
        obtain rfl : j = k := Option.some.inj h
        exact ⟨le_refl _, not_lt.mp hc, fun m hjm hmk =>
          absurd (lt_of_le_of_lt hjm hmk) (lt_irrefl _)⟩

/-- C8: whenever the wait loop returns having slept k times, the reading at
return meets the deadline (no early return), every earlier check observed an
early clock and slept one more quantum, and a clock already at or past the
deadline on entry returns with zero sleeps. -/
theorem wall_clock_wait_correct (c : ℕ → ℚ) (deadline : ℚ) (fuel k : ℕ)
    (h : wall_clock_wait c deadline fuel 0 = some k) :
    deadline ≤ c k ∧ (∀ m, m < k → c m < deadline) ∧
      (deadline ≤ c 0 → k = 0) := by
  obtain ⟨-, h2, h3⟩ := wall_clock_wait_invariant c deadline fuel 0 k h
  refine ⟨h2, fun m hm => h3 m (Nat.zero_le m) hm, ?_⟩
  intro h0
  by_contra hk
  exact absurd h0 (not_le.mpr (h3 0 (le_refl 0) (Nat.pos_of_ne_zero hk)))

/-- Witness for C8 with the clock c n = n, deadline 2, fuel 5: the loop sleeps
twice and returns at the first reading meeting the deadline. -/
theorem wall_clock_wait_correct_witness :
    wall_clock_wait (fun n => (n : ℚ)) 2 5 0 = some 2 ∧
      ((2 : ℚ) ≤ ((2 : ℕ) : ℚ) ∧
        (∀ m, m < 2 → ((m : ℕ) : ℚ) < 2) ∧
        ((2 : ℚ) ≤ ((0 : ℕ) : ℚ) → (2 : ℕ) = 0)) :=
  ⟨by decide, wall_clock_wait_correct (fun n => (n : ℚ)) 2 5 2 (by decide)⟩

/-- Observable actions of update_loop: dispatching a schedule entry (running
its action inside the guard) and committing a completion time to the tracker. -/
inductive LoopEvent where
  | dispatch (e : ScheduleEntry)
  | trackerWrite (k : ScheduledEvent) (ts : ℚ)
deriving DecidableEq

/-- One scheduled occurrence as the loop sees it: the merged entry, the outcome
of the action body run inside managed_browser, and the wall-clock completion
time passed to the tracker on success. -/
structure LoopStep where
  entry : ScheduleEntry
  outcome : Outcome Unit
  now : ℚ
deriving DecidableEq

/-- update_loop from the source, over a finite prefix of the merged schedule:
each entry's action runs inside managed_browser; on success the tracker row for
the entry's kind is updated with the completion time; except KeyboardInterrupt
re-raises (the Bool result records that the loop was aborted this way); except
Exception logs and continues with the next entry. -/
def update_loop : TrackerState → List LoopStep →
    TrackerState × Bool × List LoopEvent
  | tr, [] => (tr, false, [])
  | tr, step :: rest =>
      match (managed_browser step.now step.outcome).1 with
      | .ok _ =>
          let r := update_loop (record tr step.entry.what step.now) rest
          (r.1, r.2.1,
            .dispatch step.entry ::
              .trackerWrite step.entry.what step.now :: r.2.2)
      | .exn .keyboardInterrupt => (tr, true, [.dispatch step.entry])
      | .exn _ =>
          let r := update_loop tr rest
          (r.1, r.2.1, .dispatch step.entry :: r.2.2)

/-- C5: a successful dispatch commits the completion time for the entry's kind
via record before the loop continues; a failed dispatch (actor-class or
ordinary) is caught at the dispatch boundary, leaves the tracker untouched, and
the loop continues with the next entry; in particular after a lone failed
dispatch the tracker equals its pre-dispatch value, and record commits the
completion time exactly when it exceeds the stored value. -/
theorem update_loop_failure_isolation (tr : TrackerState) (e : ScheduleEntry)
    (t : ℚ) (rest : List LoopStep) :
    update_loop tr (⟨e, .ok (), t⟩ :: rest) =
      ((update_loop (record tr e.what t) rest).1,
        (update_loop (record tr e.what t) rest).2.1,
        .dispatch e :: .trackerWrite e.what t ::
          (update_loop (record tr e.what t) rest).2.2) ∧
    update_loop tr (⟨e, .exn .webDriver, t⟩ :: rest) =
      ((update_loop tr rest).1, (update_loop tr rest).2.1,
        .dispatch e :: (update_loop tr rest).2.2) ∧
    update_loop tr (⟨e, .exn .other, t⟩ :: rest) =
      ((update_loop tr rest).1, (update_loop tr rest).2.1,
        .dispatch e :: (update_loop tr rest).2.2) ∧
    (update_loop tr [⟨e, .exn .webDriver, t⟩]).1 = tr ∧
    (update_loop tr [⟨e, .exn .other, t⟩]).1 = tr ∧
    lastOf (record tr e.what t) e.what =
      (if lastOf tr e.what < t then t else lastOf tr e.what) :=
  ⟨rfl, rfl, rfl, rfl, rfl, lastOf_record tr e.what t⟩

/-- C7: a KeyboardInterrupt raised during a dispatch is never absorbed by the
generic handler: for any run whose earlier steps are free of cancellation, the
loop stops at the cancelled dispatch with the aborted flag set, the tracker as
left by the earlier steps, and no dispatch or tracker write for any later
entry. -/
theorem update_loop_cancellation (e : ScheduleEntry) (t : ℚ)
    (steps rest : List LoopStep)
    (h : ∀ s ∈ steps, s.outcome ≠ Outcome.exn ExnClass.keyboardInterrupt) :
    ∀ tr : TrackerState,
      update_loop tr
        (steps ++ ⟨e, Outcome.exn ExnClass.keyboardInterrupt, t⟩ :: rest) =
      ((update_loop tr steps).1, true,
        (update_loop tr steps).2.2 ++ [LoopEvent.dispatch e]) := by
  induction steps with
  | nil => intro tr; rfl
  | cons s steps ih =>
      intro tr
      have hs : s.outcome ≠ Outcome.exn ExnClass.keyboardInterrupt :=
        h s (List.mem_cons_self s steps)
      have hrest : ∀ s1 ∈ steps,
          s1.outcome ≠ Outcome.exn ExnClass.keyboardInterrupt :=
        fun s1 hmem => h s1 (List.mem_cons_of_mem s hmem)
      obtain ⟨se, so, st⟩ := s
      cases so with
      | ok a =>
          cases a
          show update_loop tr (⟨se, .ok (), st⟩ ::
            (steps ++ ⟨e, Outcome.exn ExnClass.keyboardInterrupt, t⟩ :: rest)) = _
          simp only [update_loop, managed_browser]
          rw [ih hrest (record tr se.what st)]
          simp
      | exn c =>
          cases c with
          | webDriver =>
              show update_loop tr (⟨se, .exn .webDriver, st⟩ ::
                (steps ++
                  ⟨e, Outcome.exn ExnClass.keyboardInterrupt, t⟩ :: rest)) = _
              simp only [update_loop, managed_browser]
              rw [ih hrest tr]
              simp
          | keyboardInterrupt => exact absurd rfl hs
          | other =>
              show update_loop tr (⟨se, .exn .other, st⟩ ::
                (steps ++
                  ⟨e, Outcome.exn ExnClass.keyboardInterrupt, t⟩ :: rest)) = _
              simp only [update_loop, managed_browser]
              rw [ih hrest tr]
              simp

/-- Witness for C7: one successful REFRESH step followed by a cancelled
dispatch; the loop stops with the aborted flag and only the two dispatches and
the one tracker write in its trace. -/
theorem update_loop_cancellation_witness :
    (∀ s ∈ [(⟨⟨1, .REFRESH⟩, Outcome.ok (), 2⟩ : LoopStep)],
      s.outcome ≠ Outcome.exn ExnClass.keyboardInterrupt) ∧
      update_loop ⟨0, 0⟩
        ([(⟨⟨1, .REFRESH⟩, Outcome.ok (), 2⟩ : LoopStep)] ++
          ⟨⟨3, .UPDATE⟩, Outcome.exn ExnClass.keyboardInterrupt, 3⟩ :: []) =
      ((update_loop ⟨0, 0⟩
          [(⟨⟨1, .REFRESH⟩, Outcome.ok (), 2⟩ : LoopStep)]).1, true,
        (update_loop ⟨0, 0⟩
          [(⟨⟨1, .REFRESH⟩, Outcome.ok (), 2⟩ : LoopStep)]).2.2 ++
          [LoopEvent.dispatch ⟨3, .UPDATE⟩]) :=
  ⟨by decide,
    update_loop_cancellation ⟨3, .UPDATE⟩ 3
      [(⟨⟨1, .REFRESH⟩, Outcome.ok (), 2⟩ : LoopStep)] [] (by decide) ⟨0, 0⟩⟩

end Workua
